import Mathlib

/-
Shallow embedding of the highlight-generation core of src/app.py.

Modelling conventions:
* Durations and time offsets (Python floats) are embedded as rationals.
* The ambient random generator is embedded as an explicit stream
  g : ℕ → ℚ of unit draws together with a stream position; the Python
  call random.uniform(0, b) is a + (b - a) * random(), i.e. b * g pos
  here, with 0 ≤ g i < 1 stated as a hypothesis where a theorem needs it.
* A moviepy clip is embedded by its observable state: its duration and
  whether an audio track is present.  video.subclip(s, e) in the sampler
  is represented by the pair (s, e) that determines it; the assembler
  turns those pairs into Timeline values.
* Exceptions become Option / an explicit result type.  The while loop in
  generate_scenes_highlight does not terminate in Python when the
  concatenated highlight has nonpositive duration and is shorter than the
  target; that case is modelled by the explicit result GenResult.diverges,
  and the loop itself runs on a fuel argument that lemma loopAux_spec
  proves sufficient whenever the highlight duration is positive.
-/

/-- Observable state of a moviepy clip: duration in seconds and whether an
audio track is present. -/
structure Timeline where
  duration : ℚ
  hasAudio : Bool
deriving DecidableEq

/-- Observable state of a loaded source video (VideoFileClip). -/
structure Video where
  duration : ℚ
  hasAudio : Bool
deriving DecidableEq

/-- video.subclip(t_start, t_end): a clip of duration t_end - t_start that
keeps the audio of the source. -/
def Video.subclip (v : Video) (t_start t_end : ℚ) : Timeline :=
  ⟨t_end - t_start, v.hasAudio⟩

/-- clip.subclip(t_start, t_end) on an assembled timeline. -/
def Timeline.subclip (_c : Timeline) (t_start t_end : ℚ) : Timeline :=
  ⟨t_end - t_start, _c.hasAudio⟩

/-- clip.without_audio(): same duration, audio removed. -/
def Timeline.without_audio (c : Timeline) : Timeline :=
  ⟨c.duration, false⟩

/-- concatenate_videoclips: durations add; audio is present when some part
has audio. -/
def concatenate_videoclips (clips : List Timeline) : Timeline :=
  ⟨(clips.map Timeline.duration).sum, clips.any Timeline.hasAudio⟩

/-- The hard-coded SCENE_HOLDERS configuration of src/app.py. -/
def SCENE_HOLDERS : List (List ℚ) :=
  [[0.2, 0.2, 0.3, 0.7],
   [1.1, 0.9, 0.9, 0.9],
   [0.2, 0.2, 0.3, 0.7],
   [1.1, 0.9, 0.9, 0.9],
   [0.2, 0.2, 0.3, 0.7],
   [1.1, 0.9, 0.9, 0.9],
   [0.2, 0.2, 0.3, 0.7],
   [1.1, 0.9, 0.9, 0.9],
   [0.2, 0.2, 0.3, 0.7],
   [1.1, 0.9, 0.9, 0.9]]

/-- The body of the for-loop of get_random_non_overlapping_clip, one
constructor step per remaining attempt.  Each attempt draws
start_time = (video_duration - duration) * g pos, checks the half-open
overlap test against used_intervals, and on acceptance appends the
gap-padded interval and returns the raw interval (standing for
video.subclip(start_time, end_time)).  The second component is the stream
position after the call. -/
def sampleAttempts (videoDuration duration : ℚ) (used_intervals : List (ℚ × ℚ))
    (min_gap : ℚ) (g : ℕ → ℚ) :
    ℕ → ℕ → Option ((ℚ × ℚ) × List (ℚ × ℚ)) × ℕ
  | pos, 0 => (none, pos)
  | pos, tries + 1 =>
    let start_time := (videoDuration - duration) * g pos
    let end_time := start_time + duration
    if used_intervals.any (fun se => decide (se.1 < end_time) && decide (start_time < se.2)) then
      sampleAttempts videoDuration duration used_intervals min_gap g (pos + 1) tries
    else
      (some ((start_time, end_time), used_intervals ++ [(start_time, end_time + min_gap)]),
        pos + 1)

/-- get_random_non_overlapping_clip of src/app.py: up to 100 attempts, each
drawing start_time = random.uniform(0, video_duration - duration).
Returns some (interval, updated used_intervals) on success and none when
the attempt budget is exhausted (the ValueError of the source). -/
def get_random_non_overlapping_clip (videoDuration duration : ℚ)
    (used_intervals : List (ℚ × ℚ)) (min_gap : ℚ) (g : ℕ → ℚ) (pos : ℕ) :
    Option ((ℚ × ℚ) × List (ℚ × ℚ)) × ℕ :=
  sampleAttempts videoDuration duration used_intervals min_gap g pos 100

/-- Inner loop of process_scene_holders over one group of durations,
threading used_intervals, the selected clips and the stream position.
A ValueError from the sampler (none) is caught: the duration is skipped
and the walk continues. -/
def processDurations (videoDuration : ℚ) (g : ℕ → ℚ) :
    List ℚ → List (ℚ × ℚ) → List (ℚ × ℚ) → ℕ →
      List (ℚ × ℚ) × List (ℚ × ℚ) × ℕ
  | [], used, selected_clips, pos => (selected_clips, used, pos)
  | duration :: rest, used, selected_clips, pos =>
    match get_random_non_overlapping_clip videoDuration duration used 1 g pos with
    | (some (clip, used2), pos2) =>
      processDurations videoDuration g rest used2 (selected_clips ++ [clip]) pos2
    | (none, pos2) =>
      processDurations videoDuration g rest used selected_clips pos2

/-- Outer loop of process_scene_holders over the groups. -/
def processHolders (videoDuration : ℚ) (g : ℕ → ℚ) :
    List (List ℚ) → List (ℚ × ℚ) → List (ℚ × ℚ) → ℕ →
      List (ℚ × ℚ) × List (ℚ × ℚ) × ℕ
  | [], used, selected_clips, pos => (selected_clips, used, pos)
  | group :: rest, used, selected_clips, pos =>
    let r := processDurations videoDuration g group used selected_clips pos
    processHolders videoDuration g rest r.2.1 r.1 r.2.2

/-- process_scene_holders of src/app.py: used_intervals starts empty and is
shared across the whole plan; the selected subclips are returned in plan
order. -/
def process_scene_holders (videoDuration : ℚ) (sceneHolders : List (List ℚ))
    (g : ℕ → ℚ) : List (ℚ × ℚ) :=
  (processHolders videoDuration g sceneHolders [] [] 0).1

/-- The while loop of generate_scenes_highlight: while total < desired,
append the original highlight_clip to loops and add the original
highlight_len to total.  The fuel argument only bounds the number of
iterations; lemma loopAux_spec shows the bound chosen in loopStep is never
reached when the highlight duration is positive. -/
def loopAux (highlight_clip : Timeline) (highlight_len desired_final_length : ℚ) :
    ℕ → List Timeline → ℚ → List Timeline × ℚ
  | 0, loops, total => (loops, total)
  | fuel + 1, loops, total =>
    if total < desired_final_length then
      loopAux highlight_clip highlight_len desired_final_length fuel
        (loops ++ [highlight_clip]) (total + highlight_len)
    else
      (loops, total)

/-- Lines 94 to 100 of src/app.py: loops starts as [highlight_clip] and
total as highlight_len; copies of the original highlight_clip are appended
while total < desired; the final clip is the concatenation of loops. -/
def loopStep (highlight_clip : Timeline) (desired_final_length : ℚ) : Timeline :=
  let highlight_len := highlight_clip.duration
  let r := loopAux highlight_clip highlight_len desired_final_length
    (Int.toNat ⌈desired_final_length / highlight_len⌉) [highlight_clip] highlight_len
  concatenate_videoclips r.1

/-- Lines 103 to 104 of src/app.py: truncate with subclip(0, desired) only
when the duration exceeds the desired final length. -/
def truncateStep (highlight_clip : Timeline) (desired_final_length : ℚ) : Timeline :=
  if highlight_clip.duration > desired_final_length then
    highlight_clip.subclip 0 desired_final_length
  else
    highlight_clip

/-- Result of one run of generate_scenes_highlight: a finished timeline,
the fatal RuntimeError when no subclips were produced, or divergence of
the while loop (highlight duration nonpositive yet below the target). -/
inductive GenResult where
  | ok (t : Timeline)
  | noSubclips
  | diverges
deriving DecidableEq

/-- The concatenated pre-loop highlight of a run: the subclips selected by
process_scene_holders, turned into clips of the source video and
concatenated. -/
def highlightOf (video : Video) (sceneHolders : List (List ℚ)) (g : ℕ → ℚ) : Timeline :=
  concatenate_videoclips
    ((process_scene_holders video.duration sceneHolders g).map fun se => video.subclip se.1 se.2)

/-- generate_scenes_highlight of src/app.py up to (and excluding) the final
write_videofile call: extract subclips per the plan, fail when none were
produced, concatenate (highlightOf), loop if shorter than the target,
truncate if longer, and mute. -/
def generate_scenes_highlight (video : Video) (sceneHolders : List (List ℚ))
    (g : ℕ → ℚ) (desired_final_length : ℚ) : GenResult :=
  let subclips := process_scene_holders video.duration sceneHolders g
  if subclips = [] then GenResult.noSubclips
  else
    let highlight_clip := highlightOf video sceneHolders g
    let highlight_len := highlight_clip.duration
    if highlight_len < desired_final_length ∧ highlight_len ≤ 0 then GenResult.diverges
    else
      let looped := if highlight_len < desired_final_length then
        loopStep highlight_clip desired_final_length else highlight_clip
      GenResult.ok (Timeline.without_audio (truncateStep looped desired_final_length))

/-- One frame interval at the fixed 30 fps of the write_videofile call. -/
def frame_interval : ℚ := 1 / 30

/-- The invariant stated by the spec for the claimed collection: no two
stored (gap-padded) intervals satisfy the half-open overlap test. -/
def claimed_disjoint : List (ℚ × ℚ) → Bool
  | [] => true
  | p :: rest =>
    (rest.all fun q => !(decide (p.1 < q.2) && decide (q.1 < p.2))) && claimed_disjoint rest

/-- The invariant the code actually maintains on the claimed collection:
for an earlier stored interval p and a later stored interval q, the raw
part of q (its end minus the gap) does not overlap p. -/
def claimed_separated (min_gap : ℚ) : List (ℚ × ℚ) → Bool
  | [] => true
  | p :: rest =>
    (rest.all fun q => !(decide (p.1 < q.2 - min_gap) && decide (q.1 < p.2))) &&
      claimed_separated min_gap rest

/-- Number of loop iterations still needed when the running total is
total: the least j with desired ≤ total + j * highlight_len. -/
def copiesNeeded (highlight_len desired total : ℚ) : ℕ :=
  (⌈(desired - total) / highlight_len⌉).toNat

/-- Number of copies of the original highlight in the post-loop timeline
when the loop runs: the least n with desired ≤ n * highlight_len. -/
def loopCopies (highlight_len desired : ℚ) : ℕ :=
  copiesNeeded highlight_len desired highlight_len + 1

/-! ## Lemmas about the interval sampler -/

/-- Whenever the attempt loop returns an interval, the returned end is
start plus the requested duration, exactly the gap-padded pair is appended
to used_intervals, and the returned interval passes the overlap test
against every interval of used_intervals. -/
lemma sampleAttempts_some (videoDuration duration min_gap : ℚ)
    (used : List (ℚ × ℚ)) (g : ℕ → ℚ) :
    ∀ tries pos s e used2 pos2,
      sampleAttempts videoDuration duration used min_gap g pos tries
        = (some ((s, e), used2), pos2) →
      used2 = used ++ [(s, e + min_gap)] ∧ e = s + duration ∧
        ∀ p ∈ used, ¬(p.1 < e ∧ s < p.2) := by
  intro tries
  induction tries with
  | zero =>
    intro pos s e used2 pos2 h
    simp [sampleAttempts] at h
  | succ n ih =>
    intro pos s e used2 pos2 h
    simp only [sampleAttempts] at h
    by_cases hov : (used.any fun se =>
        decide (se.1 < (videoDuration - duration) * g pos + duration) &&
          decide ((videoDuration - duration) * g pos < se.2)) = true
    · rw [if_pos hov] at h
      exact ih (pos + 1) s e used2 pos2 h
    · rw [if_neg hov] at h
      have hs : s = (videoDuration - duration) * g pos := by
        have := congrArg Prod.fst h
        simp at this
        exact this.1.1.symm
      have he : e = (videoDuration - duration) * g pos + duration := by
        have := congrArg Prod.fst h
        simp at this
        exact this.1.2.symm
      have hu : used2 = used ++ [((videoDuration - duration) * g pos,
          (videoDuration - duration) * g pos + duration + min_gap)] := by
        have := congrArg Prod.fst h
        simp at this
        exact this.2.symm
      refine ⟨by rw [hu, hs, he], by rw [he, hs], ?_⟩
      intro p hp hcon
      apply hov
      rw [List.any_eq_true]
      refine ⟨p, hp, ?_⟩
      rw [Bool.and_eq_true, decide_eq_true_eq, decide_eq_true_eq]
      rw [hs, he] at hcon
      exact hcon

/-- With an empty claimed collection the very first attempt is accepted:
the overlap test over the empty list is vacuously false.  This holds for
every duration, in particular for duration > videoDuration. -/
lemma sample_empty_first (videoDuration duration min_gap : ℚ) (g : ℕ → ℚ) (pos : ℕ) :
    get_random_non_overlapping_clip videoDuration duration [] min_gap g pos
      = (some (((videoDuration - duration) * g pos,
                (videoDuration - duration) * g pos + duration),
          [((videoDuration - duration) * g pos,
            (videoDuration - duration) * g pos + duration + min_gap)]), pos + 1) := by
  show sampleAttempts videoDuration duration [] min_gap g pos (99 + 1) = _
  simp [sampleAttempts]

/-- One unfolding of the attempt loop. -/
lemma sampleAttempts_succ (videoDuration duration min_gap : ℚ) (used : List (ℚ × ℚ))
    (g : ℕ → ℚ) (pos tries : ℕ) :
    sampleAttempts videoDuration duration used min_gap g pos (tries + 1)
      = if used.any (fun se => decide (se.1 < (videoDuration - duration) * g pos + duration)
            && decide ((videoDuration - duration) * g pos < se.2)) then
          sampleAttempts videoDuration duration used min_gap g (pos + 1) tries
        else
          (some (((videoDuration - duration) * g pos,
                  (videoDuration - duration) * g pos + duration),
            used ++ [((videoDuration - duration) * g pos,
              (videoDuration - duration) * g pos + duration + min_gap)]), pos + 1) := rfl

/-- When the first draw passes the overlap test the sampler returns it at
once. -/
lemma sample_first_accept (videoDuration duration min_gap : ℚ) (used : List (ℚ × ℚ))
    (g : ℕ → ℚ) (pos : ℕ)
    (h : (used.any fun se => decide (se.1 < (videoDuration - duration) * g pos + duration)
        && decide ((videoDuration - duration) * g pos < se.2)) = false) :
    get_random_non_overlapping_clip videoDuration duration used min_gap g pos
      = (some (((videoDuration - duration) * g pos,
                (videoDuration - duration) * g pos + duration),
          used ++ [((videoDuration - duration) * g pos,
            (videoDuration - duration) * g pos + duration + min_gap)]), pos + 1) := by
  show sampleAttempts videoDuration duration used min_gap g pos (99 + 1) = _
  rw [sampleAttempts_succ, h]
  simp

/-- When every draw fails the overlap test the attempt budget is exhausted
and the sampler fails, advancing the stream position once per attempt. -/
lemma sampleAttempts_all_fail (videoDuration duration min_gap : ℚ) (used : List (ℚ × ℚ))
    (g : ℕ → ℚ)
    (h : ∀ i, (used.any fun se => decide (se.1 < (videoDuration - duration) * g i + duration)
        && decide ((videoDuration - duration) * g i < se.2)) = true) :
    ∀ tries pos,
      sampleAttempts videoDuration duration used min_gap g pos tries = (none, pos + tries) := by
  intro tries
  induction tries with
  | zero => intro pos; simp [sampleAttempts]
  | succ n ih =>
    intro pos
    rw [sampleAttempts_succ, if_pos (h pos), ih (pos + 1)]
    simp
    omega

/-! ## Claims C2 to C5 -/

/-- Claim C2 as frozen is false on the code: with clip_duration 5 strictly
greater than total_duration 3, an empty claimed collection, and the valid
unit draw 1/2, the sampler returns the interval (-1, 4) on its very first
attempt instead of failing after 100 attempts. -/
theorem sampler_oversize_counterexample :
    (3 : ℚ) < 5 ∧ 0 ≤ (1 : ℚ) / 2 ∧ (1 : ℚ) / 2 < 1 ∧
    get_random_non_overlapping_clip 3 5 [] 1 (fun _ => (1 : ℚ) / 2) 0
      = (some ((-1, 4), [(-1, 5)]), 1) := by
  refine ⟨by norm_num, by norm_num, by norm_num, ?_⟩
  have h := sample_empty_first 3 5 1 (fun _ => (1 : ℚ) / 2) 0
  norm_num at h
  convert h using 2

/-- Claim C2 amended: when clip_duration exceeds total_duration the drawn
start times are nonpositive, and the sampler still returns whenever a draw
passes the overlap test; in particular, on an empty claimed collection it
returns on the first attempt an interval (s, s + duration) with s ≤ 0.
It fails only when every one of the 100 draws overlaps a claimed
interval. -/
theorem sampler_oversize_returns_on_empty (videoDuration duration min_gap : ℚ)
    (g : ℕ → ℚ) (pos : ℕ) (hg : ∀ i, 0 ≤ g i ∧ g i < 1)
    (hgt : videoDuration < duration) :
    get_random_non_overlapping_clip videoDuration duration [] min_gap g pos
      = (some (((videoDuration - duration) * g pos,
                (videoDuration - duration) * g pos + duration),
          [((videoDuration - duration) * g pos,
            (videoDuration - duration) * g pos + duration + min_gap)]), pos + 1) ∧
    (videoDuration - duration) * g pos ≤ 0 :=
  ⟨sample_empty_first videoDuration duration min_gap g pos,
    mul_nonpos_of_nonpos_of_nonneg (by linarith) (hg pos).1⟩

/-- Witness for the amended claim C2 at concrete input. -/
theorem sampler_oversize_returns_on_empty_witness :
    get_random_non_overlapping_clip 3 5 [] 1 (fun _ => (1 : ℚ) / 3) 0
      = (some (((3 - 5) * ((1 : ℚ) / 3), (3 - 5) * ((1 : ℚ) / 3) + 5),
          [((3 - 5) * ((1 : ℚ) / 3), (3 - 5) * ((1 : ℚ) / 3) + 5 + 1)]), 0 + 1) ∧
    (3 - 5) * ((1 : ℚ) / 3) ≤ 0 :=
  sampler_oversize_returns_on_empty 3 5 1 (fun _ => (1 : ℚ) / 3) 0
    (fun _ => ⟨by norm_num, by norm_num⟩) (by norm_num)

/-- Claim C3: for every non-empty claimed collection, an interval (s, e)
returned by the sampler fails the half-open overlap test against every
existing claimed interval. -/
theorem sampler_avoids_claimed (videoDuration duration min_gap : ℚ)
    (used : List (ℚ × ℚ)) (g : ℕ → ℚ) (pos : ℕ) (s e : ℚ)
    (used2 : List (ℚ × ℚ)) (pos2 : ℕ) (_hne : used ≠ [])
    (h : get_random_non_overlapping_clip videoDuration duration used min_gap g pos
      = (some ((s, e), used2), pos2)) :
    ∀ p ∈ used, ¬(p.1 < e ∧ s < p.2) :=
  (sampleAttempts_some videoDuration duration min_gap used g 100 pos s e used2 pos2 h).2.2

/-- Witness for claim C3 at concrete input: video of duration 10, clip of
duration 2, claimed collection [(0, 5)], draw 3/4; the sampler returns
(6, 8) and (0, 5) indeed fails the overlap test against it. -/
theorem sampler_avoids_claimed_witness :
    [((0 : ℚ), (5 : ℚ))] ≠ [] ∧
    get_random_non_overlapping_clip 10 2 [(0, 5)] 1 (fun _ => (3 : ℚ) / 4) 0
      = (some ((6, 8), [(0, 5), (6, 9)]), 1) ∧
    ¬((0 : ℚ) < 8 ∧ (6 : ℚ) < 5) := by
  have hcond : (List.any [((0 : ℚ), (5 : ℚ))] fun se =>
      decide (se.1 < (10 - 2) * (fun _ : ℕ => (3 : ℚ) / 4) 0 + 2) &&
        decide ((10 - 2) * (fun _ : ℕ => (3 : ℚ) / 4) 0 < se.2)) = false := by
    simp only [List.any_cons, List.any_nil, Bool.or_false, Bool.and_eq_false_iff,
      decide_eq_false_iff_not]
    norm_num
  have h := sample_first_accept 10 2 1 [(0, 5)] (fun _ => (3 : ℚ) / 4) 0 hcond
  norm_num at h
  refine ⟨by simp, h, ?_⟩
  exact sampler_avoids_claimed 10 2 1 [(0, 5)] (fun _ => (3 : ℚ) / 4) 0 6 8
    [(0, 5), (6, 9)] 1 (by simp) h (0, 5) (by simp)

/-- Claim C4: for clip_duration ≤ total_duration, valid unit draws and an
empty claimed collection, the sampler returns on the first attempt an
interval (s, e) with 0 ≤ s and e = s + duration ≤ videoDuration. -/
theorem sampler_empty_success (videoDuration duration min_gap : ℚ)
    (g : ℕ → ℚ) (pos : ℕ) (hg : ∀ i, 0 ≤ g i ∧ g i < 1)
    (hdur : duration ≤ videoDuration) :
    get_random_non_overlapping_clip videoDuration duration [] min_gap g pos
      = (some (((videoDuration - duration) * g pos,
                (videoDuration - duration) * g pos + duration),
          [((videoDuration - duration) * g pos,
            (videoDuration - duration) * g pos + duration + min_gap)]), pos + 1) ∧
    0 ≤ (videoDuration - duration) * g pos ∧
    (videoDuration - duration) * g pos + duration ≤ videoDuration := by
  refine ⟨sample_empty_first videoDuration duration min_gap g pos, ?_, ?_⟩
  · exact mul_nonneg (by linarith) (hg pos).1
  · have h1 : (videoDuration - duration) * g pos ≤ videoDuration - duration := by
      rcases hg pos with ⟨h0, h2⟩
      calc (videoDuration - duration) * g pos
          ≤ (videoDuration - duration) * 1 := by
            apply mul_le_mul_of_nonneg_left (le_of_lt h2) (by linarith)
        _ = videoDuration - duration := mul_one _
    linarith

/-- Witness for claim C4 at concrete input. -/
theorem sampler_empty_success_witness :
    get_random_non_overlapping_clip 10 3 [] 1 (fun _ => (1 : ℚ) / 2) 0
      = (some (((10 - 3) * ((1 : ℚ) / 2), (10 - 3) * ((1 : ℚ) / 2) + 3),
          [((10 - 3) * ((1 : ℚ) / 2), (10 - 3) * ((1 : ℚ) / 2) + 3 + 1)]), 0 + 1) ∧
    0 ≤ (10 - 3) * ((1 : ℚ) / 2) ∧ (10 - 3) * ((1 : ℚ) / 2) + 3 ≤ 10 :=
  sampler_empty_success 10 3 1 (fun _ => (1 : ℚ) / 2) 0
    (fun _ => ⟨by norm_num, by norm_num⟩) (by norm_num)

/-- Claim C5: on every accepting sampler call returning (s, e), the
updated claimed collection is the old one with exactly the gap-padded pair
(s, e + min_gap) appended, and the returned subclip bounds satisfy
e = s + duration. -/
theorem sampler_appends_padded (videoDuration duration min_gap : ℚ)
    (used : List (ℚ × ℚ)) (g : ℕ → ℚ) (pos : ℕ) (s e : ℚ)
    (used2 : List (ℚ × ℚ)) (pos2 : ℕ)
    (h : get_random_non_overlapping_clip videoDuration duration used min_gap g pos
      = (some ((s, e), used2), pos2)) :
    used2 = used ++ [(s, e + min_gap)] ∧ e = s + duration := by
  have h2 := sampleAttempts_some videoDuration duration min_gap used g 100 pos s e used2 pos2 h
  exact ⟨h2.1, h2.2.1⟩

/-- Witness for claim C5 at concrete input: video of duration 20, clip of
duration 4, claimed collection [(0, 1)], draw 1/2; the sampler returns
(8, 12) and appends exactly (8, 13). -/
theorem sampler_appends_padded_witness :
    get_random_non_overlapping_clip 20 4 [(0, 1)] 1 (fun _ => (1 : ℚ) / 2) 0
      = (some ((8, 12), [(0, 1), (8, 13)]), 1) ∧
    [((0 : ℚ), (1 : ℚ)), (8, 13)] = [(0, 1)] ++ [(8, 12 + 1)] ∧ (12 : ℚ) = 8 + 4 := by
  have hcond : (List.any [((0 : ℚ), (1 : ℚ))] fun se =>
      decide (se.1 < (20 - 4) * (fun _ : ℕ => (1 : ℚ) / 2) 0 + 4) &&
        decide ((20 - 4) * (fun _ : ℕ => (1 : ℚ) / 2) 0 < se.2)) = false := by
    simp only [List.any_cons, List.any_nil, Bool.or_false, Bool.and_eq_false_iff,
      decide_eq_false_iff_not]
    norm_num
  have h := sample_first_accept 20 4 1 [(0, 1)] (fun _ => (1 : ℚ) / 2) 0 hcond
  norm_num at h
  refine ⟨h, ?_⟩
  exact sampler_appends_padded 20 4 1 [(0, 1)] (fun _ => (1 : ℚ) / 2) 0 8 12
    [(0, 1), (8, 13)] 1 h

/-! ## Claim C6: the claimed-collection invariant -/

/-- Appending an interval that is separated from every element preserves
claimed_separated. -/
lemma claimed_separated_append (min_gap : ℚ) (x : ℚ × ℚ) :
    ∀ used : List (ℚ × ℚ), claimed_separated min_gap used = true →
      (∀ p ∈ used, ¬(p.1 < x.2 - min_gap ∧ x.1 < p.2)) →
      claimed_separated min_gap (used ++ [x]) = true := by
  intro used
  induction used with
  | nil =>
    intro _ _
    simp [claimed_separated]
  | cons p rest ih =>
    intro h1 h2
    simp only [claimed_separated, Bool.and_eq_true] at h1
    show claimed_separated min_gap (p :: (rest ++ [x])) = true
    simp only [claimed_separated, Bool.and_eq_true]
    constructor
    · rw [List.all_append, Bool.and_eq_true]
      refine ⟨h1.1, ?_⟩
      simp only [List.all_cons, List.all_nil, Bool.and_true]
      have hx := h2 p (List.mem_cons_self p rest)
      simp only [Bool.not_eq_true', Bool.and_eq_false_iff, decide_eq_false_iff_not]
      by_cases hc : p.1 < x.2 - min_gap
      · exact Or.inr fun hc2 => hx ⟨hc, hc2⟩
      · exact Or.inl hc
    · exact ih h1.2 fun q hq => h2 q (List.mem_cons_of_mem p hq)

/-- Claim C6 as frozen is false on the code: the stored gap-padded
intervals may overlap each other.  Starting from an empty collection, a
first call (video duration 100, clip duration 2, draw 5/49) claims
(10, 13); a second call with draw 4/49 accepts the raw interval (8, 10),
which passes the overlap test against (10, 13), and stores (8, 11); the
two stored intervals (10, 13) and (8, 11) then overlap under the spec
test, so this sampler call does not preserve the claimed invariant. -/
theorem claimed_disjoint_counterexample :
    0 ≤ (5 : ℚ) / 49 ∧ (5 : ℚ) / 49 < 1 ∧ 0 ≤ (4 : ℚ) / 49 ∧ (4 : ℚ) / 49 < 1 ∧
    get_random_non_overlapping_clip 100 2 [] 1 (fun _ => (5 : ℚ) / 49) 0
      = (some ((10, 12), [(10, 13)]), 1) ∧
    claimed_disjoint [(10, 13)] = true ∧
    get_random_non_overlapping_clip 100 2 [(10, 13)] 1 (fun _ => (4 : ℚ) / 49) 0
      = (some ((8, 10), [(10, 13), (8, 11)]), 1) ∧
    claimed_disjoint [(10, 13), (8, 11)] = false := by
  refine ⟨by norm_num, by norm_num, by norm_num, by norm_num, ?_, ?_, ?_, ?_⟩
  · have h := sample_empty_first 100 2 1 (fun _ => (5 : ℚ) / 49) 0
    norm_num at h
    convert h using 2
  · simp [claimed_disjoint]
  · have hcond : (List.any [((10 : ℚ), (13 : ℚ))] fun se =>
        decide (se.1 < (100 - 2) * (fun _ : ℕ => (4 : ℚ) / 49) 0 + 2) &&
          decide ((100 - 2) * (fun _ : ℕ => (4 : ℚ) / 49) 0 < se.2)) = false := by
      simp only [List.any_cons, List.any_nil, Bool.or_false, Bool.and_eq_false_iff,
        decide_eq_false_iff_not]
      norm_num
    have h := sample_first_accept 100 2 1 [(10, 13)] (fun _ => (4 : ℚ) / 49) 0 hcond
    norm_num at h
    convert h using 2
  · simp only [claimed_disjoint, List.all_cons, List.all_nil, Bool.and_true,
      Bool.and_eq_false_iff, Bool.not_eq_false', Bool.and_eq_true, decide_eq_true_eq]
    norm_num

/-- Claim C6 amended: the invariant the sampler actually preserves on the
claimed collection is that for an earlier stored interval p and a later
stored interval q, the raw part of q (start q.1, end q.2 minus the gap)
does not overlap p; the stored gap-padded intervals themselves may
overlap by less than the gap. -/
theorem sampler_preserves_separation (videoDuration duration min_gap : ℚ)
    (used : List (ℚ × ℚ)) (g : ℕ → ℚ) (pos : ℕ) (s e : ℚ)
    (used2 : List (ℚ × ℚ)) (pos2 : ℕ)
    (hinv : claimed_separated min_gap used = true)
    (h : get_random_non_overlapping_clip videoDuration duration used min_gap g pos
      = (some ((s, e), used2), pos2)) :
    claimed_separated min_gap used2 = true := by
  obtain ⟨hu, _he, hnov⟩ :=
    sampleAttempts_some videoDuration duration min_gap used g 100 pos s e used2 pos2 h
  rw [hu]
  apply claimed_separated_append min_gap (s, e + min_gap) used hinv
  intro p hp
  have := hnov p hp
  intro hcon
  apply this
  constructor
  · have : e + min_gap - min_gap = e := by ring
    rw [this] at hcon
    exact hcon.1
  · exact hcon.2

/-- Witness for the amended claim C6 at concrete input: the second call of
the counterexample scenario, whose input collection [(10, 13)] is
separated, yields the collection [(10, 13), (8, 11)], still separated. -/
theorem sampler_preserves_separation_witness :
    claimed_separated 1 [((10 : ℚ), (13 : ℚ))] = true ∧
    claimed_separated 1 [((10 : ℚ), (13 : ℚ)), (8, 11)] = true := by
  have hcond : (List.any [((10 : ℚ), (13 : ℚ))] fun se =>
      decide (se.1 < (100 - 2) * (fun _ : ℕ => (4 : ℚ) / 49) 0 + 2) &&
        decide ((100 - 2) * (fun _ : ℕ => (4 : ℚ) / 49) 0 < se.2)) = false := by
    simp only [List.any_cons, List.any_nil, Bool.or_false, Bool.and_eq_false_iff,
      decide_eq_false_iff_not]
    norm_num
  have h := sample_first_accept 100 2 1 [(10, 13)] (fun _ => (4 : ℚ) / 49) 0 hcond
  norm_num at h
  have hpre : claimed_separated 1 [((10 : ℚ), (13 : ℚ))] = true := by
    simp [claimed_separated]
  refine ⟨hpre, ?_⟩
  exact sampler_preserves_separation 100 2 1 [(10, 13)] (fun _ => (4 : ℚ) / 49) 0 8 10
    [(10, 13), (8, 11)] 1 hpre h

/-! ## Lemmas about the looping step -/

/-- copiesNeeded is the least j with desired ≤ total + j * highlight_len. -/
lemma copiesNeeded_le_iff (highlight_len desired total : ℚ) (hL : 0 < highlight_len)
    (j : ℕ) :
    copiesNeeded highlight_len desired total ≤ j ↔
      desired ≤ total + j * highlight_len := by
  unfold copiesNeeded
  rw [Int.toNat_le, Int.ceil_le, div_le_iff₀ hL]
  constructor
  · intro h
    have : ((j : ℤ) : ℚ) = (j : ℚ) := by push_cast; ring
    rw [this] at h
    linarith
  · intro h
    have : ((j : ℤ) : ℚ) = (j : ℚ) := by push_cast; ring
    rw [this]
    linarith

/-- With enough fuel, the while loop appends exactly copiesNeeded copies
of the original highlight and adds that many highlight lengths to the
running total. -/
lemma loopAux_spec (highlight_clip : Timeline) (highlight_len desired : ℚ)
    (hL : 0 < highlight_len) :
    ∀ fuel total loops, copiesNeeded highlight_len desired total ≤ fuel →
      loopAux highlight_clip highlight_len desired fuel loops total
        = (loops ++ List.replicate (copiesNeeded highlight_len desired total) highlight_clip,
           total + copiesNeeded highlight_len desired total * highlight_len) := by
  intro fuel
  induction fuel with
  | zero =>
    intro total loops h
    have h0 : copiesNeeded highlight_len desired total = 0 := Nat.le_zero.mp h
    rw [h0]
    simp [loopAux]
  | succ n ih =>
    intro total loops h
    by_cases hlt : total < desired
    · have h1 : 1 ≤ copiesNeeded highlight_len desired total := by
        by_contra h0
        push_neg at h0
        have h0 : copiesNeeded highlight_len desired total = 0 := by omega
        have := (copiesNeeded_le_iff highlight_len desired total hL 0).mp (by omega)
        simp at this
        linarith
      obtain ⟨k, hk⟩ : ∃ k, copiesNeeded highlight_len desired total = k + 1 :=
        ⟨copiesNeeded highlight_len desired total - 1, by omega⟩
      have hstep : copiesNeeded highlight_len desired (total + highlight_len) = k := by
        unfold copiesNeeded at hk ⊢
        have hdiv : (desired - (total + highlight_len)) / highlight_len
            = (desired - total) / highlight_len - 1 := by
          field_simp
          ring
        rw [hdiv, Int.ceil_sub_one]
        omega
      simp only [loopAux]
      rw [if_pos hlt]
      rw [ih (total + highlight_len) (loops ++ [highlight_clip]) (by omega)]
      rw [hstep, hk]
      simp only [Prod.mk.injEq]
      constructor
      · rw [List.append_assoc, List.singleton_append, ← List.replicate_succ]
      · push_cast
        ring
    · have h0 : copiesNeeded highlight_len desired total = 0 := by
        have := (copiesNeeded_le_iff highlight_len desired total hL 0).mpr
          (by push_neg at hlt; simpa using hlt)
        omega
      rw [h0]
      simp only [loopAux]
      rw [if_neg hlt]
      simp

/-- The fuel chosen in loopStep covers the iterations the while loop
performs. -/
lemma loopStep_fuel_sufficient (highlight_len desired : ℚ) (hL : 0 < highlight_len) :
    copiesNeeded highlight_len desired highlight_len
      ≤ (⌈desired / highlight_len⌉).toNat := by
  unfold copiesNeeded
  have hdiv : (desired - highlight_len) / highlight_len = desired / highlight_len - 1 := by
    field_simp
  rw [hdiv, Int.ceil_sub_one]
  omega

/-- The looping step is the concatenation of loopCopies copies of the
original highlight. -/
lemma loopStep_spec (highlight_clip : Timeline) (desired : ℚ)
    (hL : 0 < highlight_clip.duration) (_hlt : highlight_clip.duration < desired) :
    loopStep highlight_clip desired
      = concatenate_videoclips
          (List.replicate (loopCopies highlight_clip.duration desired) highlight_clip) := by
  have h := loopAux_spec highlight_clip highlight_clip.duration desired hL
    (Int.toNat ⌈desired / highlight_clip.duration⌉) highlight_clip.duration [highlight_clip]
    (loopStep_fuel_sufficient highlight_clip.duration desired hL)
  show concatenate_videoclips
      (loopAux highlight_clip highlight_clip.duration desired
        (Int.toNat ⌈desired / highlight_clip.duration⌉) [highlight_clip]
        highlight_clip.duration).1
    = concatenate_videoclips
        (List.replicate (loopCopies highlight_clip.duration desired) highlight_clip)
  rw [h]
  show concatenate_videoclips
      ([highlight_clip] ++ List.replicate
        (copiesNeeded highlight_clip.duration desired highlight_clip.duration) highlight_clip)
    = _
  rw [List.singleton_append, ← List.replicate_succ]
  rfl

/-- Duration of the concatenation of n copies of a clip. -/
lemma concat_replicate_duration (n : ℕ) (c : Timeline) :
    (concatenate_videoclips (List.replicate n c)).duration = n * c.duration := by
  simp [concatenate_videoclips, List.map_replicate, List.sum_replicate, nsmul_eq_mul]

/-! ## Claim C1: the looping law -/

/-- Claim C1: when the concatenated highlight is strictly shorter than the
target, the looping step concatenates loopCopies copies of the fixed
original pre-loop timeline, and the resulting duration is the smallest
multiple of the original highlight duration that reaches the target. -/
theorem loop_produces_smallest_multiple (highlight_clip : Timeline) (desired : ℚ)
    (hL : 0 < highlight_clip.duration) (hlt : highlight_clip.duration < desired) :
    loopStep highlight_clip desired
      = concatenate_videoclips
          (List.replicate (loopCopies highlight_clip.duration desired) highlight_clip) ∧
    (loopStep highlight_clip desired).duration
      = loopCopies highlight_clip.duration desired * highlight_clip.duration ∧
    desired ≤ loopCopies highlight_clip.duration desired * highlight_clip.duration ∧
    ∀ m : ℕ, desired ≤ m * highlight_clip.duration →
      loopCopies highlight_clip.duration desired ≤ m := by
  have hspec := loopStep_spec highlight_clip desired hL hlt
  refine ⟨hspec, ?_, ?_, ?_⟩
  · rw [hspec, concat_replicate_duration]
  · have h := (copiesNeeded_le_iff highlight_clip.duration desired highlight_clip.duration hL
      (copiesNeeded highlight_clip.duration desired highlight_clip.duration)).mp le_rfl
    unfold loopCopies
    push_cast
    linarith
  · intro m hm
    unfold loopCopies
    match m with
    | 0 =>
      exfalso
      simp at hm
      linarith
    | Nat.succ m2 =>
      have : copiesNeeded highlight_clip.duration desired highlight_clip.duration ≤ m2 := by
        rw [copiesNeeded_le_iff highlight_clip.duration desired highlight_clip.duration hL m2]
        push_cast at hm ⊢
        linarith
      omega

/-- Witness for claim C1 at concrete input: a highlight of duration 8 and
target 30 are looped to 4 copies of the original timeline (32 seconds,
the smallest multiple of 8 reaching 30). -/
theorem loop_produces_smallest_multiple_witness :
    (0 : ℚ) < 8 ∧ (8 : ℚ) < 30 ∧
    loopStep ⟨8, true⟩ 30
      = concatenate_videoclips (List.replicate 4 ⟨8, true⟩) ∧
    (loopStep ⟨8, true⟩ 30).duration = 4 * 8 := by
  have hcopies : loopCopies (Timeline.duration ⟨8, true⟩) 30 = 4 := by
    unfold loopCopies copiesNeeded
    have h : ⌈((30 : ℚ) - 8) / 8⌉ = 3 := by
      rw [Int.ceil_eq_iff]
      norm_num
    show (⌈((30 : ℚ) - 8) / 8⌉).toNat + 1 = 4
    rw [h]
    rfl
  have h := loop_produces_smallest_multiple ⟨8, true⟩ 30 (by norm_num) (by norm_num)
  rw [hcopies] at h
  refine ⟨by norm_num, by norm_num, h.1, ?_⟩
  rw [h.2.1]
  norm_num

/-! ## Claim C8: truncation is a no-op on short timelines -/

/-- Claim C8: truncating a timeline already no longer than the target
leaves it unchanged. -/
theorem truncate_noop_when_short (c : Timeline) (desired : ℚ)
    (h : c.duration ≤ desired) : truncateStep c desired = c := by
  unfold truncateStep
  rw [if_neg]
  exact not_lt.mpr h

/-- Witness for claim C8 at concrete input. -/
theorem truncate_noop_when_short_witness :
    Timeline.duration ⟨3, true⟩ ≤ 5 ∧ truncateStep ⟨3, true⟩ 5 = ⟨3, true⟩ :=
  ⟨by norm_num, truncate_noop_when_short ⟨3, true⟩ 5 (by norm_num)⟩

/-! ## Characterizing generate_scenes_highlight -/

/-- Truncation pins the duration to the target whenever the timeline is at
least as long as the target. -/
lemma truncateStep_duration (c : Timeline) (desired : ℚ) (h : desired ≤ c.duration) :
    (truncateStep c desired).duration = desired := by
  unfold truncateStep
  by_cases h2 : c.duration > desired
  · rw [if_pos h2]
    show desired - 0 = desired
    ring
  · rw [if_neg h2]
    push_neg at h2
    linarith

/-- The looping step reaches the target. -/
lemma loopStep_reaches_target (c : Timeline) (desired : ℚ) (hL : 0 < c.duration)
    (hlt : c.duration < desired) : desired ≤ (loopStep c desired).duration := by
  rw [loopStep_spec c desired hL hlt, concat_replicate_duration]
  have h := (copiesNeeded_le_iff c.duration desired c.duration hL
    (copiesNeeded c.duration desired c.duration)).mp le_rfl
  unfold loopCopies
  push_cast
  linarith

/-- Full characterization of generate_scenes_highlight: the run fails with
noSubclips exactly when the plan produced no subclips, diverges exactly
when the pre-loop highlight is shorter than the target but has nonpositive
duration, and otherwise returns the muted timeline of exactly the target
duration. -/
lemma generate_characterization (video : Video) (sceneHolders : List (List ℚ))
    (g : ℕ → ℚ) (desired : ℚ) :
    generate_scenes_highlight video sceneHolders g desired
      = if process_scene_holders video.duration sceneHolders g = [] then GenResult.noSubclips
        else if (highlightOf video sceneHolders g).duration < desired ∧
            (highlightOf video sceneHolders g).duration ≤ 0 then GenResult.diverges
        else GenResult.ok ⟨desired, false⟩ := by
  simp only [generate_scenes_highlight]
  by_cases h1 : process_scene_holders video.duration sceneHolders g = []
  · rw [if_pos h1, if_pos h1]
  · rw [if_neg h1, if_neg h1]
    by_cases h2 : (highlightOf video sceneHolders g).duration < desired ∧
        (highlightOf video sceneHolders g).duration ≤ 0
    · rw [if_pos h2, if_pos h2]
    · rw [if_neg h2, if_neg h2]
      have hdur : desired ≤ (if (highlightOf video sceneHolders g).duration < desired then
          loopStep (highlightOf video sceneHolders g) desired
        else highlightOf video sceneHolders g).duration := by
        by_cases h3 : (highlightOf video sceneHolders g).duration < desired
        · rw [if_pos h3]
          have hpos : 0 < (highlightOf video sceneHolders g).duration := by
            by_contra h4
            push_neg at h4
            exact h2 ⟨h3, h4⟩
          exact loopStep_reaches_target (highlightOf video sceneHolders g) desired hpos h3
        · rw [if_neg h3]
          push_neg at h3
          exact h3
      have := truncateStep_duration _ desired hdur
      congr 1
      show Timeline.without_audio _ = _
      unfold Timeline.without_audio
      rw [this]

/-- Unfolding processDurations on a successful sampler call. -/
lemma processDurations_cons_some (videoDuration d : ℚ) (g : ℕ → ℚ) (rest : List ℚ)
    (used sel : List (ℚ × ℚ)) (pos : ℕ) (clip : ℚ × ℚ) (used2 : List (ℚ × ℚ)) (pos2 : ℕ)
    (h : get_random_non_overlapping_clip videoDuration d used 1 g pos
      = (some (clip, used2), pos2)) :
    processDurations videoDuration g (d :: rest) used sel pos
      = processDurations videoDuration g rest used2 (sel ++ [clip]) pos2 := by
  simp only [processDurations]
  rw [h]

/-- Unfolding processDurations on a failing sampler call: the duration is
skipped and the walk continues. -/
lemma processDurations_cons_none (videoDuration d : ℚ) (g : ℕ → ℚ) (rest : List ℚ)
    (used sel : List (ℚ × ℚ)) (pos pos2 : ℕ)
    (h : get_random_non_overlapping_clip videoDuration d used 1 g pos = (none, pos2)) :
    processDurations videoDuration g (d :: rest) used sel pos
      = processDurations videoDuration g rest used sel pos2 := by
  simp only [processDurations]
  rw [h]

/-- With a single-duration plan the first sampler call sees the empty
collection and accepts its first draw, so the plan selects exactly that
interval. -/
lemma process_single (videoDuration d : ℚ) (g : ℕ → ℚ) :
    process_scene_holders videoDuration [[d]] g
      = [((videoDuration - d) * g 0, (videoDuration - d) * g 0 + d)] := by
  unfold process_scene_holders
  have h1 : processDurations videoDuration g [d] [] [] 0
      = ([((videoDuration - d) * g 0, (videoDuration - d) * g 0 + d)],
         [((videoDuration - d) * g 0, (videoDuration - d) * g 0 + d + 1)], 1) := by
    rw [processDurations_cons_some videoDuration d g [] [] [] 0
      ((videoDuration - d) * g 0, (videoDuration - d) * g 0 + d)
      [((videoDuration - d) * g 0, (videoDuration - d) * g 0 + d + 1)] 1
      (sample_empty_first videoDuration d 1 g 0)]
    simp [processDurations]
  simp only [processHolders, h1]

/-- The single-duration highlight has exactly that duration and keeps the
audio of the source. -/
lemma highlightOf_single (video : Video) (d : ℚ) (g : ℕ → ℚ) :
    (highlightOf video [[d]] g).duration = d := by
  unfold highlightOf
  rw [process_single video.duration d g]
  simp [concatenate_videoclips, Video.subclip]

/-! ## Claim C7: failure semantics of the assembler -/

/-- Claim C7: the assembler fails fatally exactly when zero subclips were
produced over the whole plan, and a failing sampler call for one duration
is skipped: the walk resumes on the rest of the plan with the same
collections. -/
theorem fatal_iff_zero_subclips (video : Video) (sceneHolders : List (List ℚ))
    (g : ℕ → ℚ) (desired : ℚ) :
    (generate_scenes_highlight video sceneHolders g desired = GenResult.noSubclips
      ↔ process_scene_holders video.duration sceneHolders g = []) ∧
    (∀ videoDuration duration : ℚ, ∀ rest : List ℚ, ∀ used sel : List (ℚ × ℚ), ∀ pos : ℕ,
      (get_random_non_overlapping_clip videoDuration duration used 1 g pos).1 = none →
      processDurations videoDuration g (duration :: rest) used sel pos
        = processDurations videoDuration g rest used sel
            (get_random_non_overlapping_clip videoDuration duration used 1 g pos).2) := by
  constructor
  · rw [generate_characterization]
    by_cases h1 : process_scene_holders video.duration sceneHolders g = []
    · rw [if_pos h1]
      simp [h1]
    · rw [if_neg h1]
      by_cases h2 : (highlightOf video sceneHolders g).duration < desired ∧
          (highlightOf video sceneHolders g).duration ≤ 0
      · rw [if_pos h2]
        simp [h1]
      · rw [if_neg h2]
        simp [h1]
  · intro videoDuration duration rest used sel pos h
    rcases hr : get_random_non_overlapping_clip videoDuration duration used 1 g pos
      with ⟨r, pos2⟩
    rw [hr] at h
    simp only at h
    subst h
    exact processDurations_cons_none videoDuration duration g rest used sel pos pos2 hr

/-- Witness for claim C7 at concrete input: an empty plan group yields no
subclips and the fatal failure; and a sampler call that fails (claimed
interval (-10, 10) blocks every draw of a 5-second clip from a 3-second
video) is skipped by the plan walk. -/
theorem fatal_iff_zero_subclips_witness :
    generate_scenes_highlight ⟨3, true⟩ [[]] (fun _ => (1 : ℚ) / 2) 10
      = GenResult.noSubclips ∧
    processDurations 3 (fun _ => (1 : ℚ) / 2) [5] [(-10, 10)] [] 0
      = processDurations 3 (fun _ => (1 : ℚ) / 2) [] [(-10, 10)] [] 100 := by
  have hfail : get_random_non_overlapping_clip 3 5 [(-10, 10)] 1 (fun _ => (1 : ℚ) / 2) 0
      = (none, 100) := by
    show sampleAttempts 3 5 [(-10, 10)] 1 (fun _ => (1 : ℚ) / 2) 0 100 = (none, 100)
    have hcond : ∀ i : ℕ, (List.any [((-10 : ℚ), (10 : ℚ))] fun se =>
        decide (se.1 < (3 - 5) * (fun _ : ℕ => (1 : ℚ) / 2) i + 5) &&
          decide ((3 - 5) * (fun _ : ℕ => (1 : ℚ) / 2) i < se.2)) = true := by
      intro i
      simp only [List.any_cons, List.any_nil, Bool.or_false, Bool.and_eq_true,
        decide_eq_true_eq]
      norm_num
    have h := sampleAttempts_all_fail 3 5 1 [(-10, 10)] (fun _ => (1 : ℚ) / 2) hcond 100 0
    simpa using h
  constructor
  · refine (fatal_iff_zero_subclips ⟨3, true⟩ [[]] (fun _ => (1 : ℚ) / 2) 10).1.mpr ?_
    simp [process_scene_holders, processHolders, processDurations]
  · have h2 := (fatal_iff_zero_subclips ⟨3, true⟩ [[]] (fun _ => (1 : ℚ) / 2) 10).2
      3 5 [] [(-10, 10)] [] 0 (by rw [hfail])
    rw [hfail] at h2
    exact h2

/-! ## Claim C9: the output is muted and lands on the target -/

/-- Claim C9: every timeline returned by a successful run has no audio
track and its duration is within one frame interval of the target (in
fact it equals the target exactly). -/
theorem output_muted_within_frame (video : Video) (sceneHolders : List (List ℚ))
    (g : ℕ → ℚ) (desired : ℚ) (t : Timeline)
    (h : generate_scenes_highlight video sceneHolders g desired = GenResult.ok t) :
    t.hasAudio = false ∧ |t.duration - desired| ≤ frame_interval := by
  rw [generate_characterization] at h
  by_cases h1 : process_scene_holders video.duration sceneHolders g = []
  · rw [if_pos h1] at h
    exact absurd h (by simp)
  · rw [if_neg h1] at h
    by_cases h2 : (highlightOf video sceneHolders g).duration < desired ∧
        (highlightOf video sceneHolders g).duration ≤ 0
    · rw [if_pos h2] at h
      exact absurd h (by simp)
    · rw [if_neg h2] at h
      have ht : (⟨desired, false⟩ : Timeline) = t := by
        injection h
      rw [← ht]
      refine ⟨rfl, ?_⟩
      show |desired - desired| ≤ frame_interval
      rw [sub_self, abs_zero]
      unfold frame_interval
      norm_num

/-! ## Claim C10: the final duration is exactly the target -/

/-- Claim C10: when the plan produced at least one subclip, the
concatenated highlight has positive duration and the target is positive,
the run succeeds and the final timeline (before encoding) has exactly the
target duration, with audio removed. -/
theorem final_duration_exact (video : Video) (sceneHolders : List (List ℚ))
    (g : ℕ → ℚ) (desired : ℚ)
    (hne : process_scene_holders video.duration sceneHolders g ≠ [])
    (hpos : 0 < (highlightOf video sceneHolders g).duration)
    (_hd : 0 < desired) :
    generate_scenes_highlight video sceneHolders g desired
      = GenResult.ok ⟨desired, false⟩ := by
  rw [generate_characterization, if_neg hne,
    if_neg (fun h2 => absurd hpos (not_lt.mpr h2.2))]

/-- Witness for claim C10 at concrete input: video of duration 100, plan
[[2]], draws all 0, target 5; the highlight is the subclip (0, 2), gets
looped to 6 seconds and truncated to exactly 5. -/
theorem final_duration_exact_witness :
    process_scene_holders (Video.duration ⟨100, true⟩) [[2]] (fun _ => (0 : ℚ)) ≠ [] ∧
    0 < (highlightOf ⟨100, true⟩ [[2]] (fun _ => (0 : ℚ))).duration ∧
    generate_scenes_highlight ⟨100, true⟩ [[2]] (fun _ => (0 : ℚ)) 5
      = GenResult.ok ⟨5, false⟩ := by
  have hne : process_scene_holders (Video.duration ⟨100, true⟩) [[2]] (fun _ => (0 : ℚ)) ≠ [] := by
    rw [process_single]
    simp
  have hpos : 0 < (highlightOf ⟨100, true⟩ [[2]] (fun _ => (0 : ℚ))).duration := by
    rw [highlightOf_single]
    norm_num
  exact ⟨hne, hpos,
    final_duration_exact ⟨100, true⟩ [[2]] (fun _ => (0 : ℚ)) 5 hne hpos (by norm_num)⟩

/-- Witness for claim C9 at concrete input: video of duration 50, plan
[[3]], draws all 0, target 7; the run returns the muted timeline of
duration exactly 7. -/
theorem output_muted_within_frame_witness :
    generate_scenes_highlight ⟨50, true⟩ [[3]] (fun _ => (0 : ℚ)) 7
      = GenResult.ok ⟨7, false⟩ ∧
    Timeline.hasAudio ⟨7, false⟩ = false ∧
    |Timeline.duration ⟨(7 : ℚ), false⟩ - 7| ≤ frame_interval := by
  have hgen : generate_scenes_highlight ⟨50, true⟩ [[3]] (fun _ => (0 : ℚ)) 7
      = GenResult.ok ⟨7, false⟩ := by
    have hne2 : process_scene_holders (Video.duration ⟨50, true⟩) [[3]]
        (fun _ => (0 : ℚ)) ≠ [] := by
      rw [process_single]
      simp
    have hok : ¬((highlightOf ⟨50, true⟩ [[3]] (fun _ => (0 : ℚ))).duration < 7 ∧
        (highlightOf ⟨50, true⟩ [[3]] (fun _ => (0 : ℚ))).duration ≤ 0) := by
      rw [highlightOf_single]
      norm_num
    rw [generate_characterization, if_neg hne2, if_neg hok]
  refine ⟨hgen, ?_⟩
  exact output_muted_within_frame ⟨50, true⟩ [[3]] (fun _ => (0 : ℚ)) 7 ⟨7, false⟩ hgen
